import Mathlib

/-!
# Verification of the binary quantization codec (pack/unpack kernels)

Shallow embedding of `tensorflow/lite/micro/My/kernel/quantization.cc` and
`tensorflow/lite/micro/My/lite/kernels/unsorted_segment_prod.cc`.

The low-level bitpacking utilities (`GetBitpackedSize`, `bitpack_tensor`,
`unpack_matrix` from `larq_compute_engine/core/bitpacking/utils.h`) are not
part of the excerpted source; they are modelled from the spec (WordLayout,
ShapeTransform, ThresholdPolicy, ReconstructionPolicy, BitpackCodec).
32-bit float values are idealized as rationals `ℚ` (the properties at stake
are order comparisons and exact small constants); machine `int` values are
`Int`, with the narrowing conversion to `int8` made explicit where it occurs.
-/

namespace Quantization

/-- Modelled from the spec (§4.1 WordLayout): the fixed bit width `W` of a
packed word. The packed word type `TBitpacked` is a 32-bit integer, so
`W = 32`. -/
def W : Nat := 32

/-- Modelled from the spec (§4.2 ShapeTransform) and
`larq_compute_engine/core/bitpacking/utils.h` (not in the excerpt):
`GetBitpackedSize n = ceil(n / W)`, the number of packed words needed for
`n` unpacked elements. -/
def GetBitpackedSize (n : Nat) : Nat := (n + (W - 1)) / W

/-- Assemble a list of bits into one word, least-significant-bit first
(the spec leaves the in-word bit order as an implementation choice; this
development fixes LSB-first and uses it consistently for pack and unpack). -/
def packWord (bits : List Bool) : Nat :=
  bits.foldr (fun b acc => 2 * acc + (if b then 1 else 0)) 0

/-- Bit `i` of the word `w` (LSB numbered 0). -/
def nthBit (w i : Nat) : Bool := decide ((w / 2 ^ i) % 2 = 1)

/-- Modelled from the spec (§4.5 BitpackCodec, pack direction): group a bit
sequence into `GetBitpackedSize` words of `W` bits each; bit positions beyond
the end of the sequence in the final partially-filled word are zero. -/
def packBits (bits : List Bool) : List Nat :=
  (List.range (GetBitpackedSize bits.length)).map (fun wi =>
    packWord ((List.range W).map (fun o => bits.getD (wi * W + o) false)))

/-- Modelled from the spec (§4.3 ThresholdPolicy, numeric case, and the
comment in `QuantizeEval`): one element maps to bit 1 iff its value is
strictly less than the zero point. -/
def bitpackBit {α : Type} [LT α] [DecidableRel (fun (a b : α) => a < b)]
    (zero_point v : α) : Bool := decide (v < zero_point)

/-- Modelled from the spec: `bitpack_tensor` restricted to one row of the
last (packed) dimension: threshold every element, then pack the bits. -/
def bitpackRow {α : Type} [LT α] [DecidableRel (fun (a b : α) => a < b)]
    (zero_point : α) (row : List α) : List Nat :=
  packBits (row.map (bitpackBit zero_point))

/-- Read the bit of flattened element `j` from a row of packed words:
word `j / W`, offset `j % W` (spec §4.1 `bitIndexToWordAndOffset`). -/
def getPackedBit (words : List Nat) (j : Nat) : Bool :=
  nthBit (words.getD (j / W) 0) (j % W)

/-- Modelled from the spec (§4.4 ReconstructionPolicy, §4.5 `Unpack`):
`unpack_matrix` restricted to one row: element `j` of the `num_cols`
outputs is `v1` when its packed bit is 1 and `v0` when it is 0. -/
def unpackRow {α : Type} (words : List Nat) (num_cols : Nat) (v0 v1 : α) :
    List α :=
  (List.range num_cols).map (fun j => if getPackedBit words j then v1 else v0)

/-- The TFLite datatype tags that appear at this boundary (`kTfLiteFloat32`,
`kTfLiteInt8`, `kTfLiteInt32`, `kTfLiteBool`), plus a representative of the
remaining tags of the enum (`kTfLiteFloat64` stands for any datatype outside
the sets handled by these kernels). -/
inductive TfLiteType
  | float32
  | int8
  | int32
  | boolT
  | float64
deriving DecidableEq

/-- `TfLiteStatus` as returned across the host boundary. -/
inductive TfLiteStatus
  | kTfLiteOk
  | kTfLiteError
deriving DecidableEq

/-- The fields of a tensor descriptor consumed by the Prepare functions:
datatype tag and dimension list. -/
structure Tensor where
  type : TfLiteType
  dims : List Nat
deriving DecidableEq

/-- `QuantizePrepare` (quantization.cc lines 19-41): requires a supported
input type (float32 / int8 / bool), an int32 output, equal ranks; on success
resizes the output to the input shape with the last dimension replaced by
`GetBitpackedSize` of the input's last dimension. `some dims` models a
successful `ResizeTensor` to shape `dims`; `none` models an error status. -/
def QuantizePrepare (input output : Tensor) : Option (List Nat) :=
  if (input.type = TfLiteType.float32 ∨ input.type = TfLiteType.int8 ∨
        input.type = TfLiteType.boolT)
      ∧ output.type = TfLiteType.int32
      ∧ input.dims.length = output.dims.length then
    some (input.dims.dropLast ++ [GetBitpackedSize (input.dims.getLastD 0)])
  else
    none

/-- `DequantizePrepare` (quantization.cc lines 43-74): requires an int32
input, a supported output type, equal ranks, equal non-last dimensions, and
that the input's (packed) last dimension equal `GetBitpackedSize` of the
output's (unpacked) last dimension. It only validates: it never resizes the
output (the unpacked size is not recoverable from the packed size), hence it
returns a bare status. -/
def DequantizePrepare (input output : Tensor) : TfLiteStatus :=
  if input.type = TfLiteType.int32
      ∧ (output.type = TfLiteType.float32 ∨ output.type = TfLiteType.int8 ∨
          output.type = TfLiteType.boolT)
      ∧ input.dims.length = output.dims.length
      ∧ input.dims.dropLast = output.dims.dropLast
      ∧ input.dims.getLastD 0 = GetBitpackedSize (output.dims.getLastD 0) then
    TfLiteStatus.kTfLiteOk
  else
    TfLiteStatus.kTfLiteError

/-- A typed input buffer for `QuantizeEval`, viewed as a matrix whose rows
are the flattened non-last dimensions and whose columns are the last (packed)
dimension. Float data is idealized as `ℚ`; boolean data is carried as its
underlying unsigned bit pattern (a `Nat`), as the kernel reinterprets it. -/
inductive TInput
  | f32 (data : List (List ℚ))
  | i8 (zero_point : Int) (data : List (List Int))
  | boolT (data : List (List Nat))
  | i32 (data : List (List Int))
  | f64 (data : List (List ℚ))

/-- `QuantizeEval` (quantization.cc lines 76-114): float32 is bitpacked
against the fixed threshold 0; int8 against the tensor's zero point; bool is
reinterpreted as an unsigned integer and bitpacked against a zero point of 1
(so the all-zero-bits value packs as bit 1, everything else as bit 0); any
other input type returns an error and writes nothing. -/
def QuantizeEval : TInput → Except Unit (List (List Nat))
  | TInput.f32 data => Except.ok (data.map (bitpackRow (0 : ℚ)))
  | TInput.i8 zero_point data => Except.ok (data.map (bitpackRow zero_point))
  | TInput.boolT data => Except.ok (data.map (bitpackRow (1 : Nat)))
  | _ => Except.error ()

/-- `std::round` / `TfLiteRound`: round half away from zero. -/
def tfLiteRound (q : ℚ) : Int :=
  if 0 ≤ q then ⌊q + 1 / 2⌋ else -⌊-q + 1 / 2⌋

/-- The C++ narrowing conversion of an `int` to `std::int8_t`: reduction
modulo 2^8 into [-128, 127]. -/
def toInt8 (x : Int) : Int := (x + 128) % 256 - 128

/-- `zero_bit_result` of the int8 branch of `DequantizeEval` (lines
131-133): `std::int8_t zero_bit_result = std::min(127, zero_point + offset)`
with `offset = TfLiteRound(1 / scale)`. Note the clamp is one-sided; the
narrowing conversion to `int8_t` is applied to the result. -/
def zeroBitResult (scale : ℚ) (zero_point : Int) : Int :=
  toInt8 (min 127 (zero_point + tfLiteRound (1 / scale)))

/-- `one_bit_result` of the int8 branch of `DequantizeEval` (lines 134-135):
`std::int8_t one_bit_result = std::max(-128, zero_point - offset)`. -/
def oneBitResult (scale : ℚ) (zero_point : Int) : Int :=
  toInt8 (max (-128) (zero_point - tfLiteRound (1 / scale)))

/-- The destination datatype (with its quantization parameters where
consumed) for `DequantizeEval`. -/
inductive TOutputType
  | f32
  | i8 (scale : ℚ) (zero_point : Int)
  | boolT
  | i32
  | f64

/-- A typed output buffer written by `DequantizeEval`. -/
inductive TOutputData
  | f32 (data : List (List ℚ))
  | i8 (data : List (List Int))
  | boolT (data : List (List Bool))
deriving DecidableEq

/-- `DequantizeEval` (quantization.cc lines 116-147): unpacks the packed
input matrix row by row over `num_cols` columns. Float32 reconstructs bit 0
as `+1.0` and bit 1 as `-1.0` (the defaults of `unpack_matrix`, per the
spec's ReconstructionPolicy); int8 reconstructs via `zeroBitResult` /
`oneBitResult`; bool reconstructs bit 0 as `true` and bit 1 as `false`; any
other output type returns an error and writes nothing. -/
def DequantizeEval (ty : TOutputType) (input : List (List Nat))
    (num_cols : Nat) : Except Unit TOutputData :=
  match ty with
  | TOutputType.f32 =>
      Except.ok (TOutputData.f32
        (input.map (fun r => unpackRow r num_cols (1 : ℚ) (-1 : ℚ))))
  | TOutputType.i8 scale zero_point =>
      Except.ok (TOutputData.i8
        (input.map (fun r =>
          unpackRow r num_cols (zeroBitResult scale zero_point)
            (oneBitResult scale zero_point))))
  | TOutputType.boolT =>
      Except.ok (TOutputData.boolT
        (input.map (fun r => unpackRow r num_cols true false)))
  | _ => Except.error ()

/-- The underlying bit pattern of a well-formed C++ `bool`: `false` is the
all-zero pattern, `true` is 1. -/
def boolPattern (b : Bool) : Nat := if b then 1 else 0

/-- The running maximum of the segment-id loop in `ResizeOutputTensor`
(unsorted_segment_prod.cc lines 49-52), starting from `-1`. -/
def maxSegmentId (ids : List Int) : Int := ids.foldl max (-1)

/-- `ResizeOutputTensor` (unsorted_segment_prod.cc lines 35-62): requires the
`num_segments` tensor to be rank-0 or rank-1 with one element, the segment-id
count to equal the data tensor's first dimension, and the maximum segment id
to be strictly below the declared segment count; on success resizes the
output to the declared count followed by the data tensor's remaining
dimensions. `some dims` models a successful `ResizeTensor`; `none` an error
status. -/
def ResizeOutputTensor (dataDims : List Int) (segmentIds : List Int)
    (numSegmentsDims : List Int) (numSegments : Int) : Option (List Int) :=
  if (numSegmentsDims = [1] ∨ numSegmentsDims = [])
      ∧ (segmentIds.length : Int) = dataDims.headD 0
      ∧ maxSegmentId segmentIds < numSegments then
    some (numSegments :: dataDims.drop 1)
  else
    none

theorem nthBit_packWord (bits : List Bool) (i : Nat) :
    nthBit (packWord bits) i = bits.getD i false := by
  induction bits generalizing i with
  | nil =>
    simp [packWord, nthBit, Nat.zero_div]
  | cons b rest ih =>
    have hPW : packWord (b :: rest)
        = 2 * packWord rest + (if b then 1 else 0) := rfl
    cases i with
    | zero =>
      rw [hPW]
      simp only [nthBit, pow_zero, Nat.div_one, List.getD_cons_zero]
      cases b <;> simp [Nat.add_mul_mod_self_left, Nat.mul_mod_right]
      omega
    | succ i =>
      rw [hPW]
      have hdiv : (2 * packWord rest + (if b then 1 else 0)) / 2 ^ (i + 1)
          = packWord rest / 2 ^ i := by
        rw [pow_succ, mul_comm (2 ^ i) 2, ← Nat.div_div_eq_div_mul]
        congr 1
        rw [Nat.mul_add_div (by norm_num)]
        cases b <;> simp
      simp only [nthBit, hdiv, List.getD_cons_succ]
      exact ih i

theorem getD_packBits (bits : List Bool) (j : Nat) (hj : j < bits.length) :
    getPackedBit (packBits bits) j = bits.getD j false := by
  have hW : 0 < W := by decide
  have hwi : j / W < GetBitpackedSize bits.length := by
    simp only [GetBitpackedSize, W] at *
    omega
  have hget : (packBits bits).getD (j / W) 0
      = packWord ((List.range W).map (fun o => bits.getD (j / W * W + o) false)) := by
    simp only [packBits]
    rw [List.getD_eq_getElem?_getD, List.getElem?_map, List.getElem?_range hwi]
    rfl
  rw [getPackedBit, hget, nthBit_packWord]
  have hoff : j % W < W := Nat.mod_lt _ hW
  rw [List.getD_eq_getElem?_getD, List.getElem?_map, List.getElem?_range hoff]
  simp only [Option.map_some', Option.getD_some]
  congr 1
  rw [mul_comm]
  exact Nat.div_add_mod j W

theorem unpackRow_packBits {α : Type} (bits : List Bool) (v0 v1 : α) :
    unpackRow (packBits bits) bits.length v0 v1
      = bits.map (fun b => if b then v1 else v0) := by
  apply List.ext_getElem
  · simp [unpackRow]
  · intro i h1 h2
    have hi : i < bits.length := by simpa [unpackRow] using h1
    simp only [unpackRow, List.getElem_map, List.getElem_range]
    rw [getD_packBits bits i hi]
    rw [List.getD_eq_getElem?_getD, List.getElem?_eq_getElem hi]
    rfl

/-- C3: every boolean element packed by `QuantizeEval` maps to output bit 1
exactly when its underlying bit pattern is all-zero (`false`), and to bit 0
for any other pattern (`true`) — pattern matching, not magnitude
comparison. -/
theorem quantize_bool_bit_inversion (rows : List (List Nat)) :
    QuantizeEval (TInput.boolT rows)
      = Except.ok (rows.map (fun r => packBits (r.map (fun v => decide (v = 0))))) := by
  have h : bitpackBit (1 : Nat) = (fun v => decide (v = 0)) := by
    funext v
    simp [bitpackBit, Nat.lt_one_iff]
  simp [QuantizeEval, bitpackRow, h]

/-- C4: `QuantizeEval` maps a float32 element to bit 1 iff it is less than
the fixed reference value 0, and an int8 element to bit 1 iff it is less
than the tensor's zero point; the float input `[-1.0, 0.5, -0.3, 2.0]`
packs to bits `[1,0,1,0]` in positional order (one word, LSB-first). -/
theorem quantize_numeric_thresholds :
    (∀ rows : List (List ℚ), QuantizeEval (TInput.f32 rows)
        = Except.ok (rows.map (fun r => packBits (r.map (fun v => decide (v < 0))))))
    ∧ (∀ (zero_point : Int) (rows : List (List Int)),
        QuantizeEval (TInput.i8 zero_point rows)
          = Except.ok (rows.map (fun r =>
              packBits (r.map (fun v => decide (v < zero_point))))))
    ∧ QuantizeEval (TInput.f32 [[-1, 1/2, -3/10, 2]])
        = Except.ok [[packWord [true, false, true, false]]] := by
  refine ⟨fun rows => rfl, fun zero_point rows => rfl, ?_⟩
  with_unfolding_all rfl

/-- C5: `GetBitpackedSize n = ceil(n / W)` for every `n` (in particular
`0 ↦ 0`, `1 ↦ 1`, `32 ↦ 1`, `33 ↦ 2` at `W = 32`), and `QuantizePrepare`
sets the output's last dimension to `GetBitpackedSize` of the input's last
dimension. -/
theorem packed_size_is_ceil :
    (∀ n : Nat, (GetBitpackedSize n : ℤ) = ⌈(n : ℚ) / (W : ℚ)⌉)
    ∧ GetBitpackedSize 0 = 0 ∧ GetBitpackedSize 1 = 1
    ∧ GetBitpackedSize 32 = 1 ∧ GetBitpackedSize 33 = 2
    ∧ ∀ (input output : Tensor) (odims : List Nat),
        input.dims ≠ [] → QuantizePrepare input output = some odims →
        odims.getLastD 0 = GetBitpackedSize (input.dims.getLastD 0) := by
  refine ⟨?_, by decide, by decide, by decide, by decide, ?_⟩
  · intro n
    have h1 : n ≤ 32 * GetBitpackedSize n := by
      simp only [GetBitpackedSize, W]
      omega
    have h2 : 32 * GetBitpackedSize n < n + 32 := by
      simp only [GetBitpackedSize, W]
      omega
    rw [eq_comm, Int.ceil_eq_iff]
    have hW : (W : ℚ) = 32 := by norm_num [W]
    rw [hW]
    constructor
    · rw [lt_div_iff₀ (by norm_num : (0 : ℚ) < 32)]
      push_cast
      have h2q : (32 : ℚ) * GetBitpackedSize n < n + 32 := by exact_mod_cast h2
      linarith
    · rw [div_le_iff₀ (by norm_num : (0 : ℚ) < 32)]
      push_cast
      have h1q : (n : ℚ) ≤ 32 * GetBitpackedSize n := by exact_mod_cast h1
      linarith
  · intro input output odims hne h
    unfold QuantizePrepare at h
    split at h
    · have hd : odims = input.dims.dropLast ++ [GetBitpackedSize (input.dims.getLastD 0)] :=
        (Option.some.injEq _ _ ▸ h).symm
      rw [hd]
      simp
    · exact absurd h (by simp)

/-- C5 witness: `QuantizePrepare` at a float32 input of shape `[4]` and an
int32 output resizes the output to `[1]`, whose last dimension is
`GetBitpackedSize 4`. -/
theorem packed_size_is_ceil_witness :
    ([1] : List Nat).getLastD 0
      = GetBitpackedSize ((([4] : List Nat)).getLastD 0) :=
  packed_size_is_ceil.2.2.2.2.2 ⟨TfLiteType.float32, [4]⟩ ⟨TfLiteType.int32, [9]⟩
    [1] (by decide) (by rfl)

/-- C8: invoking pack or unpack with a datatype outside
{float32, int8, bool} (here: int32 and float64) returns an error status and
writes no output. -/
theorem unsupported_type_errors :
    (∀ data : List (List Int), QuantizeEval (TInput.i32 data) = Except.error ())
    ∧ (∀ data : List (List ℚ), QuantizeEval (TInput.f64 data) = Except.error ())
    ∧ (∀ (input : List (List Nat)) (n : Nat),
        DequantizeEval TOutputType.i32 input n = Except.error ())
    ∧ (∀ (input : List (List Nat)) (n : Nat),
        DequantizeEval TOutputType.f64 input n = Except.error ()) :=
  ⟨fun _ => rfl, fun _ => rfl, fun _ _ => rfl, fun _ _ => rfl⟩

/-- C10: the packed word type at the host boundary is int32:
`QuantizePrepare` errors unless the output tensor's datatype is int32, and
`DequantizePrepare` errors unless the input tensor's datatype is int32. -/
theorem packed_word_type_is_int32 :
    (∀ input output : Tensor, output.type ≠ TfLiteType.int32 →
        QuantizePrepare input output = none)
    ∧ (∀ input output : Tensor, input.type ≠ TfLiteType.int32 →
        DequantizePrepare input output = TfLiteStatus.kTfLiteError) := by
  constructor
  · intro input output h
    unfold QuantizePrepare
    rw [if_neg]
    tauto
  · intro input output h
    unfold DequantizePrepare
    rw [if_neg]
    tauto

/-- C10 witness: with a float32 output (resp. float32 input) in place of
int32, `QuantizePrepare` (resp. `DequantizePrepare`) fails. -/
theorem packed_word_type_is_int32_witness :
    QuantizePrepare ⟨TfLiteType.float32, [4]⟩ ⟨TfLiteType.float32, [1]⟩ = none
    ∧ DequantizePrepare ⟨TfLiteType.float32, [1]⟩ ⟨TfLiteType.float32, [4]⟩
        = TfLiteStatus.kTfLiteError :=
  ⟨packed_word_type_is_int32.1 _ _ (by decide),
   packed_word_type_is_int32.2 _ _ (by decide)⟩

/-- C6: `DequantizePrepare` validates without resizing: given matching
types/ranks and equal non-last dimensions, it succeeds iff the packed last
dimension equals `GetBitpackedSize` of the declared unpacked last dimension,
returning an error status otherwise; `GetBitpackedSize n = p` holds exactly
for `n` in `((p-1)*W, p*W]` when `p > 0`, and only for `n = 0` when
`p = 0`. -/
theorem dequantize_prepare_validates (input output : Tensor)
    (ht : input.type = TfLiteType.int32)
    (hot : output.type = TfLiteType.float32 ∨ output.type = TfLiteType.int8 ∨
      output.type = TfLiteType.boolT)
    (hrank : input.dims.length = output.dims.length)
    (hbody : input.dims.dropLast = output.dims.dropLast) :
    (DequantizePrepare input output = TfLiteStatus.kTfLiteOk ↔
        input.dims.getLastD 0 = GetBitpackedSize (output.dims.getLastD 0))
    ∧ (DequantizePrepare input output = TfLiteStatus.kTfLiteError ↔
        ¬ input.dims.getLastD 0 = GetBitpackedSize (output.dims.getLastD 0))
    ∧ (∀ p n : Nat, GetBitpackedSize n = p ↔
        (if p = 0 then n = 0 else (p - 1) * W < n ∧ n ≤ p * W)) := by
  refine ⟨?_, ?_, ?_⟩
  · unfold DequantizePrepare
    split
    · rename_i hc
      simp only [true_iff]
      exact hc.2.2.2.2
    · rename_i hc
      constructor
      · intro habs
        exact absurd habs (by simp)
      · intro hlast
        exact absurd ⟨ht, hot, hrank, hbody, hlast⟩ hc
  · unfold DequantizePrepare
    split
    · rename_i hc
      constructor
      · intro habs
        exact absurd habs (by simp)
      · intro hne
        exact absurd hc.2.2.2.2 hne
    · rename_i hc
      simp only [true_iff]
      intro hlast
      exact hc ⟨ht, hot, hrank, hbody, hlast⟩
  · intro p n
    simp only [GetBitpackedSize, W]
    split <;> omega

/-- C6 witness: an int32 packed input of shape `[2, 1]` against a declared
float32 output of shape `[2, 32]` passes validation, since
`GetBitpackedSize 32 = 1`. -/
theorem dequantize_prepare_validates_witness :
    DequantizePrepare ⟨TfLiteType.int32, [2, 1]⟩ ⟨TfLiteType.float32, [2, 32]⟩
      = TfLiteStatus.kTfLiteOk :=
  ((dequantize_prepare_validates ⟨TfLiteType.int32, [2, 1]⟩
      ⟨TfLiteType.float32, [2, 32]⟩ rfl (Or.inl rfl) rfl rfl).1).mpr (by decide)

/-- C7: all non-last dimensions are preserved: a successful
`QuantizePrepare` yields an output shape agreeing with the input shape on
every dimension but the last (same rank), and `DequantizePrepare` succeeds
only when input and output have equal rank and equal non-last dimensions. -/
theorem nonlast_dims_preserved :
    (∀ (input output : Tensor) (odims : List Nat), input.dims ≠ [] →
        QuantizePrepare input output = some odims →
        odims.dropLast = input.dims.dropLast ∧ odims.length = input.dims.length)
    ∧ (∀ input output : Tensor,
        DequantizePrepare input output = TfLiteStatus.kTfLiteOk →
        input.dims.length = output.dims.length ∧
        input.dims.dropLast = output.dims.dropLast) := by
  constructor
  · intro input output odims hne h
    unfold QuantizePrepare at h
    split at h
    · rename_i hc
      have hd : odims = input.dims.dropLast ++ [GetBitpackedSize (input.dims.getLastD 0)] :=
        (Option.some.injEq _ _ ▸ h).symm
      subst hd
      constructor
      · simp
      · have hpos : 0 < input.dims.length := List.length_pos.mpr hne
        simp only [List.length_append, List.length_dropLast, List.length_cons,
          List.length_nil]
        omega
    · exact absurd h (by simp)
  · intro input output h
    unfold DequantizePrepare at h
    split at h
    · rename_i hc
      exact ⟨hc.2.2.1, hc.2.2.2.1⟩
    · exact absurd h (by simp)

/-- C7 witness: instantiation at a shape-`[3, 4]` pack input (output resized
to `[3, 1]`) and a shape-`[2, 1]` / `[2, 32]` unpack pair. -/
theorem nonlast_dims_preserved_witness :
    (([3, 1] : List Nat).dropLast = ([3, 4] : List Nat).dropLast
      ∧ ([3, 1] : List Nat).length = ([3, 4] : List Nat).length)
    ∧ ([2, 1] : List Nat).length = ([2, 32] : List Nat).length
      ∧ ([2, 1] : List Nat).dropLast = ([2, 32] : List Nat).dropLast :=
  ⟨nonlast_dims_preserved.1 ⟨TfLiteType.int8, [3, 4]⟩ ⟨TfLiteType.int32, [3, 9]⟩
      [3, 1] (by decide) (by rfl),
   nonlast_dims_preserved.2 ⟨TfLiteType.int32, [2, 1]⟩
      ⟨TfLiteType.boolT, [2, 32]⟩ (by decide)⟩

theorem unpackRow_bitpackRow_bool (r : List Bool) :
    unpackRow (bitpackRow (1 : Nat) (r.map boolPattern)) r.length true false
      = r := by
  have hbits : (r.map boolPattern).map (bitpackBit (1 : Nat))
      = r.map (fun b => !b) := by
    rw [List.map_map]
    apply List.map_congr_left
    intro b _
    cases b <;> rfl
  have hlen : r.length = (r.map (fun b => !b)).length := by simp
  rw [bitpackRow, hbits, hlen, unpackRow_packBits, List.map_map]
  have hid : ((fun b => if b then false else true) ∘ fun b => !b)
      = fun (b : Bool) => b := by
    funext b
    cases b <;> rfl
  rw [hid, List.map_id']

/-- C1: boolean pack followed by boolean unpack is lossless: for every
boolean tensor whose rows all have the declared width `n`, unpacking the
words produced by `QuantizeEval` on the underlying bool patterns
reconstructs the original tensor exactly. -/
theorem bool_roundtrip (T : List (List Bool)) (n : Nat)
    (h : ∀ r ∈ T, r.length = n) (P : List (List Nat))
    (hP : QuantizeEval (TInput.boolT (T.map (fun r => r.map boolPattern)))
      = Except.ok P) :
    DequantizeEval TOutputType.boolT P n = Except.ok (TOutputData.boolT T) := by
  have hPeq : P = (T.map (fun r => r.map boolPattern)).map (bitpackRow (1 : Nat)) := by
    simpa [QuantizeEval] using hP.symm
  subst hPeq
  simp only [DequantizeEval, List.map_map, Except.ok.injEq, TOutputData.boolT.injEq]
  have : ∀ r ∈ T, ((fun r => unpackRow r n true false) ∘
      (bitpackRow (1 : Nat) ∘ fun r => r.map boolPattern)) r = r := by
    intro r hr
    have := unpackRow_bitpackRow_bool r
    rw [h r hr] at this
    simpa using this
  rw [List.map_congr_left this, List.map_id']

/-- C1 witness: the row `[true, false, true]` packs to the single word `2`
(bit pattern `[0,1,0]`) and unpacks back to `[true, false, true]`. -/
theorem bool_roundtrip_witness :
    DequantizeEval TOutputType.boolT [[2]] 3
      = Except.ok (TOutputData.boolT [[true, false, true]]) :=
  bool_roundtrip [[true, false, true]] 3 (by simp) [[2]] (by rfl)

theorem foldl_max_lt (ids : List Int) (a c : Int) :
    ids.foldl max a < c ↔ a < c ∧ ∀ i ∈ ids, i < c := by
  induction ids generalizing a with
  | nil => simp
  | cons x xs ih =>
    simp only [List.foldl_cons, ih, max_lt_iff, List.mem_cons]
    constructor
    · rintro ⟨⟨ha, hx⟩, hrest⟩
      exact ⟨ha, fun i hi => hi.elim (fun he => he ▸ hx) (hrest i)⟩
    · rintro ⟨ha, hall⟩
      exact ⟨⟨ha, hall x (Or.inl rfl)⟩, fun i hi => hall i (Or.inr hi)⟩

/-- C9: given a well-formed `num_segments` tensor and a segment-id count
matching the data tensor's first dimension, `ResizeOutputTensor` errors iff
the maximum segment id is not strictly below the declared segment count
(equivalently: iff not every segment id is below a nonnegative-or-above
count), and on success the output's first dimension is the declared count
with all other dimensions equal to the data tensor's. -/
theorem segment_prod_output_validation (dataDims segmentIds numSegmentsDims : List Int)
    (numSegments : Int)
    (h1 : numSegmentsDims = [1] ∨ numSegmentsDims = [])
    (h2 : (segmentIds.length : Int) = dataDims.headD 0) :
    (ResizeOutputTensor dataDims segmentIds numSegmentsDims numSegments = none ↔
        ¬ maxSegmentId segmentIds < numSegments)
    ∧ (maxSegmentId segmentIds < numSegments ↔
        (-1 < numSegments ∧ ∀ i ∈ segmentIds, i < numSegments))
    ∧ (∀ odims, ResizeOutputTensor dataDims segmentIds numSegmentsDims numSegments
          = some odims →
        odims.headD 0 = numSegments ∧ odims.drop 1 = dataDims.drop 1) := by
  refine ⟨?_, foldl_max_lt segmentIds (-1) numSegments, ?_⟩
  · unfold ResizeOutputTensor
    split
    · rename_i hc
      constructor
      · intro habs
        exact absurd habs (by simp)
      · intro hn
        exact absurd hc.2.2 hn
    · rename_i hc
      simp only [true_iff]
      intro hmax
      exact hc ⟨h1, h2, hmax⟩
  · intro odims h
    unfold ResizeOutputTensor at h
    split at h
    · have hd : odims = numSegments :: dataDims.drop 1 :=
        (Option.some.injEq _ _ ▸ h).symm
      subst hd
      exact ⟨rfl, rfl⟩
    · exact absurd h (by simp)

/-- C9 witness: data shape `[3, 2]`, segment ids `[0, 1, 0]`, declared
count `2`: validation succeeds and the output shape is `[2, 2]`. -/
theorem segment_prod_output_validation_witness :
    ([2, 2] : List Int).headD 0 = 2
    ∧ ([2, 2] : List Int).drop 1 = ([3, 2] : List Int).drop 1 :=
  (segment_prod_output_validation [3, 2] [0, 1, 0] [] 2 (Or.inr rfl)
    (by decide)).2.2 [2, 2] (by rfl)

/-- C2 counterexample: the claim's unconditional two-sided clamp fails on
the code: at `scale = -1`, `zero_point = -128` the offset is `-1`, the
claimed value is `clamp(-128 + -1) = -128`, but the kernel's one-sided
`min` followed by the narrowing `int8` conversion wraps `-129` to `127`. -/
theorem int8_reconstruction_counterexample :
    zeroBitResult (-1) (-128) = 127
    ∧ max (-128) (min 127 ((-128) + tfLiteRound (1 / (-1 : ℚ)))) = -128
    ∧ (127 : Int) ≠ -128 := by
  refine ⟨?_, ?_, by decide⟩
  · with_unfolding_all rfl
  · with_unfolding_all rfl

/-- C2 (amended): for a positive scale and a zero point within the int8
range, the reconstruction values of the int8 `DequantizeEval` branch equal
the fully clamped `clamp(zero_point ± round(1/scale))` of the claim, the
clamp saturating to `[-128, 127]`. -/
theorem int8_reconstruction (scale : ℚ) (zero_point : Int)
    (hs : 0 < scale) (hlo : -128 ≤ zero_point) (hhi : zero_point ≤ 127) :
    zeroBitResult scale zero_point
      = max (-128) (min 127 (zero_point + tfLiteRound (1 / scale)))
    ∧ oneBitResult scale zero_point
      = max (-128) (min 127 (zero_point - tfLiteRound (1 / scale))) := by
  have hq : (0 : ℚ) ≤ 1 / scale := le_of_lt (by positivity)
  have hoff : 0 ≤ tfLiteRound (1 / scale) := by
    unfold tfLiteRound
    rw [if_pos hq]
    exact Int.le_floor.mpr (by push_cast; linarith)
  constructor
  · unfold zeroBitResult toInt8
    omega
  · unfold oneBitResult toInt8
    omega

/-- C2 witness: with `scale = 1/127`, `zero_point = 0` the offset is
`round(127) = 127`; bit 0 reconstructs to `127` and bit 1 to `-127`. -/
theorem int8_reconstruction_witness :
    zeroBitResult (1 / 127) 0 = 127 ∧ oneBitResult (1 / 127) 0 = -127 := by
  have h := int8_reconstruction (1 / 127) 0 (by norm_num) (by decide) (by decide)
  exact ⟨h.1.trans (by with_unfolding_all rfl),
    h.2.trans (by with_unfolding_all rfl)⟩

end Quantization
